import Mathlib

/-!
Verification of the flakiness summarizer (package `summarizer`).

The definitions below are a shallow embedding of the Go source in
`src/unnamed/part_002` (the current `pkg/summarizer/flakiness.go`, the version
exercised by `flakiness_test.go`; the copy at `src/pkg/summarizer/flakiness.go`
is a stale earlier draft superseded by it).

Modelling conventions:
* Go `float64` fields (`averageFlakiness`, `flakiness`, `Column.Started`,
  bucket thresholds, percentages) are modelled as `ℚ`.  Every value these
  fields take in the program (`50.0` running means over identical values,
  `100*failed/totalRuns`, integral timestamps) is exact, so rational
  arithmetic agrees with the float computation except that `x / 0` is `0`
  rather than NaN/Inf, and `%.2f` rounding of non-representable values is
  modelled as ordinary rounding of the exact rational.
* Go counters (`passed`, `failed`, ... — only ever incremented from zero) are
  modelled as `ℕ`; `minRuns` and the window bounds stay `ℤ` (callers pass
  `-1`).
* Go `map[string]int` values are modelled as association lists holding the
  same contents; `m[k] += n` is `bumpBy`, `m[k] = v` is `setA`.  One fixed
  enumeration order stands in for Go's arbitrary map iteration order; all
  map-derived report fields are either order-independent contents or
  explicitly quantified over enumerations in the theorems.
-/

set_option allowUnsafeReducibility true in
attribute [semireducible] Rat.add Rat.mul Rat.inv Rat.sub

namespace Summarizer

/-- A run event (Go `state.Column`); `started` is its `float64` timestamp. -/
structure Column where
  started : ℚ
  deriving DecidableEq, Repr

/-- The decoded per-cell outcome codes that the summarizer distinguishes.
Modelled from the spec: the `state.Row_Result` enum is not under `src/`; the
spec's data model names outcome codes PASS, FAIL, FLAKY, NO_RESULT "plus
transient/running codes collapsed before classification". -/
inductive RowCode where
  | noResult
  | pass
  | fail
  | flaky
  | running
  deriving DecidableEq, Repr

/-- One test row (Go `state.Row`): a name, run-length-encoded results
(pairs of outcome code and repeat count) and per-decoded-position messages. -/
structure Row where
  name : String
  results : List (RowCode × Int)
  messages : List String
  deriving DecidableEq, Repr

/-- A dashboard-tab grid (Go `state.Grid`). -/
structure Grid where
  columns : List Column
  rows : List Row
  deriving DecidableEq, Repr

/-- Per-row aggregate counts (Go `Result`). -/
structure Result where
  name : String
  passed : ℕ
  failed : ℕ
  flakyCount : ℕ
  averageFlakiness : ℚ
  failedInfraCount : ℕ
  infraFailures : List (String × ℕ)
  deriving DecidableEq, Repr

/-- Merged per-(name, env) summary (Go `TestInfo`). -/
structure TestInfo where
  name : String
  env : String
  totalRuns : ℕ
  totalRunsWithInfra : ℕ
  passedRuns : ℕ
  failedRuns : ℕ
  failedInfraRuns : ℕ
  flakyRuns : ℕ
  flakiness : ℚ
  infraInfo : String
  deriving DecidableEq, Repr

/-- The zero value `TestInfo{}` returned on the insufficient-runs path. -/
def TestInfo.zero : TestInfo :=
  { name := "", env := "", totalRuns := 0, totalRunsWithInfra := 0,
    passedRuns := 0, failedRuns := 0, failedInfraRuns := 0, flakyRuns := 0,
    flakiness := 0, infraInfo := "" }

/-- Severity bucket (Go `FlakyBucket`). -/
structure FlakyBucket where
  threshold : ℚ
  tests : ℕ
  deriving DecidableEq, Repr

/-- Final report (Go `Healthiness`). -/
structure Healthiness where
  startDate : ℤ
  endDate : ℤ
  tests : List TestInfo
  totalTests : ℕ
  totalJailedTests : ℕ
  averageFlakiness : ℚ
  flakyBuckets : List FlakyBucket
  infraIssues : List (String × ℕ)
  totalConfigs : ℕ
  deriving DecidableEq, Repr

/-- Association-list lookup, modelling Go's `v, ok := m[k]`. -/
def lookupA {α : Type} : List (String × α) → String → Option α
  | [], _ => none
  | (k', v) :: rest, k => if k' = k then some v else lookupA rest k

/-- Association-list store, modelling Go's `m[k] = v` (replace or append). -/
def setA {α : Type} : List (String × α) → String → α → List (String × α)
  | [], k, v => [(k, v)]
  | (k', v') :: rest, k, v =>
    if k' = k then (k, v) :: rest else (k', v') :: setA rest k v

/-- Association-list increment, modelling Go's `m[k] += n` on a counter map. -/
def bumpBy : List (String × ℕ) → String → ℕ → List (String × ℕ)
  | [], k, n => [(k, n)]
  | (k', v) :: rest, k, n =>
    if k' = k then (k', v + n) :: rest else (k', v) :: bumpBy rest k n

/-- Go regexp `\w` (ASCII word character, as in `INFRA_REGEX = ^\w+$`). -/
def isWordChar (c : Char) : Bool :=
  c.isAlphanum || c = '_'

/-- Whether `INFRA_REGEX.MatchString(message)` holds: the anchored pattern
`^\w+$` matches exactly the nonempty all-word-character strings. -/
def isInfraToken (message : String) : Bool :=
  !message.data.isEmpty && message.data.all isWordChar

/-- Go global `DEFAULT_FLAKINESS = 50.0`. -/
def DEFAULT_FLAKINESS : ℚ := 50

/-- Go global `MIN_RUNS = 0`. -/
def MIN_RUNS : ℤ := 0

/-- Go global `HEALTHY_RANGE` map, in source textual order. -/
def HEALTHY_RANGE : List (ℤ × String) :=
  [(20, "red"), (10, "purple"), (3, "orange"), (0, "green")]

/-- Go `categorizeFailure`: a genuine failure bumps `failed`; an
infrastructure failure (message matching `INFRA_REGEX`) bumps
`failedInfraCount` and `infraFailures[message]`. -/
def categorizeFailure (resultCounts : Result) (message : String) : Result :=
  if message = "" || !isInfraToken message then
    { resultCounts with failed := resultCounts.failed + 1 }
  else
    { resultCounts with
      failedInfraCount := resultCounts.failedInfraCount + 1,
      infraFailures := bumpBy resultCounts.infraFailures message 1 }

/-- Go `getValueOfFlakyResult`: bump `flakyCount` and fold the fixed default
flakiness into the running mean `mean += (value - mean) / newCount`. -/
def getValueOfFlakyResult (resultCounts : Result) : Result :=
  let flakiness := DEFAULT_FLAKINESS
  let newCount := resultCounts.flakyCount + 1
  { resultCounts with
    flakyCount := newCount,
    averageFlakiness :=
      resultCounts.averageFlakiness +
        (flakiness - resultCounts.averageFlakiness) / (newCount : ℚ) }

/-- Go `isWithinTimeFrame`: inclusive `[startTime, endTime]` window test. -/
def isWithinTimeFrame (column : Column) (startTime endTime : ℤ) : Bool :=
  decide ((startTime : ℚ) ≤ column.started) &&
    decide (column.started ≤ (endTime : ℚ))

/-- Run-length decoding of a row's `results`, as performed by
`result.Iter`: each `(code, count)` pair is expanded in order into `count`
copies of `code` (non-positive counts contribute nothing).
Modelled from the spec: `internal/result` is not under `src/`; the decoding
is the one documented at the call site in `parseGrid`
(`[0, 3, 5, 4] -> [0, 0, 0, 5, 5, 5, 5]`). -/
def iterDecode : List (RowCode × Int) → List RowCode
  | [] => []
  | (code, count) :: rest => List.replicate count.toNat code ++ iterDecode rest

/-- `result.Coalesce(·, result.IgnoreRunning)`.
Modelled from the spec: `internal/result` is not under `src/`; the spec says
still-in-progress (running) outcomes are treated as absent, and the
remaining codes classify as themselves. -/
def coalesce : RowCode → RowCode
  | .running => .noResult
  | r => r

/-- The per-position loop body of `parseGrid`, scanning decoded outcomes
with their column index: out-of-window columns and NO_RESULT outcomes are
skipped, FAIL is classified via `categorizeFailure` on `messages[i]`,
PASS bumps `passed`, FLAKY runs the running-mean update.  A decoded position
with no corresponding column is skipped, and a missing message reads as ""
(in Go both indexings would panic; the spec declares misaligned inputs a
precondition violation). -/
def scanPositions (columns : List Column) (messages : List String)
    (startTime endTime : ℤ) : ℕ → Result → List RowCode → Result
  | _, acc, [] => acc
  | i, acc, code :: rest =>
    let acc' :=
      match columns[i]? with
      | none => acc
      | some col =>
        if !isWithinTimeFrame col startTime endTime then acc
        else
          match coalesce code with
          | .noResult => acc
          | .fail => categorizeFailure acc (messages.getD i "")
          | .pass => { acc with passed := acc.passed + 1 }
          | .flaky => getValueOfFlakyResult acc
          | .running => acc
    scanPositions columns messages startTime endTime (i + 1) acc' rest

/-- The zero-valued `Result` each row starts from (`var resultCounts Result`
with a fresh empty `infraFailures` map). -/
def Result.empty : Result :=
  { name := "", passed := 0, failed := 0, flakyCount := 0,
    averageFlakiness := 0, failedInfraCount := 0, infraFailures := [] }

/-- The aggregate counts `parseGrid` accumulates for one row. -/
def rowCounts (grid : Grid) (row : Row) (startTime endTime : ℤ) : Result :=
  scanPositions grid.columns row.messages startTime endTime 0 Result.empty
    (iterDecode row.results)

/-- Go `parseGrid`: scan every row and keep (with its `name` set) exactly
the rows with some pass/fail/flaky activity inside the window. -/
def parseGrid (grid : Grid) (startTime endTime : ℤ) : List Result :=
  grid.rows.filterMap fun row =>
    let resultCounts := rowCounts grid row startTime endTime
    if resultCounts.failed > 0 ∨ resultCounts.passed > 0 ∨
        resultCounts.flakyCount > 0 then
      some { resultCounts with name := row.name }
    else none

/-! ### The name/environment splitter (`JAILED_REGEX`)

Go source:
`JAILED_REGEX = (JAILED )?(\/?\/?[A-Za-z0-9\/_\-.:}{]+) - \[([A-Za-z0-9\/:\-_.\s]+)\]\s*`
used through `FindStringSubmatch` (unanchored leftmost search with Go's
leftmost-first submatch semantics).  The matcher below is this pattern,
specialised:
* `isIdentChar` is the class of capture group 2.  The optional leading
  slashes of group 2 are themselves members of the class, so group 2 matches
  exactly a nonempty run of class characters and greedy matching consumes
  the maximal run (the characters of the following literal `" - ["` start
  with a space, which is outside the class, so no backtracking into the run
  can ever succeed).
* `isEnvChar` is the class of capture group 3 (`\s` is Go's `[\t\n\f\r ]`);
  `]` is outside it, so the same maximal-run argument applies.
* At each start position the engine first tries the branch consuming the
  optional `"JAILED "` group, then the branch without it (`matchAt`);
  positions are tried left to right (`findFrom`).
* The trailing `\s*` always succeeds and affects no capture.
-/

/-- Character class of `JAILED_REGEX` capture group 2 (the identifier):
`[A-Za-z0-9\/_\-.:}{]`. -/
def isIdentChar (c : Char) : Bool :=
  c.isAlphanum || c = '/' || c = '_' || c = '-' || c = '.' || c = ':' ||
    c = '\x7d' || c = '\x7b'

/-- Character class of `JAILED_REGEX` capture group 3 (the environment):
`[A-Za-z0-9\/:\-_.\s]`. -/
def isEnvChar (c : Char) : Bool :=
  c.isAlphanum || c = '/' || c = ':' || c = '-' || c = '_' || c = '.' ||
    c = ' ' || c = '\t' || c = '\n' || c = '\x0c' || c = '\r'

/-- Match `(\/?\/?[...]+) - \[([...]+)\]\s*` at the head of `l`, returning
the two captures. -/
def matchCore (l : List Char) : Option (String × String) :=
  let ident := l.takeWhile isIdentChar
  if ident.isEmpty then none
  else
    match l.dropWhile isIdentChar with
    | ' ' :: '-' :: ' ' :: '[' :: r3 =>
      let env := r3.takeWhile isEnvChar
      if env.isEmpty then none
      else
        match r3.dropWhile isEnvChar with
        | ']' :: _ => some (ident.asString, env.asString)
        | _ => none
    | _ => none

/-- Match the whole pattern at the head of `l`: first with the optional
`"JAILED "` group consumed (greedy `?`), then without it. -/
def matchAt (l : List Char) : Option (String × String) :=
  match l with
  | 'J' :: 'A' :: 'I' :: 'L' :: 'E' :: 'D' :: ' ' :: rest =>
    match matchCore rest with
    | some r => some r
    | none => matchCore l
  | _ => matchCore l

/-- Leftmost search: try `matchAt` at successive start positions. -/
def findFrom : List Char → Option (String × String)
  | [] => none
  | l@(_ :: rest) =>
    match matchAt l with
    | some r => some r
    | none => findFrom rest

/-- `JAILED_REGEX.FindStringSubmatch` restricted to the two captures. -/
def findJailed (s : String) : Option (String × String) :=
  findFrom s.data

/-- Go `getNameAndEnvFromTest`: split a composite test name into base name
and environment; on no match fall back to the raw name and the tab name
(the failure is only logged). -/
def getNameAndEnvFromTest (testName tabName : String) : String × String :=
  match findJailed testName with
  | some (name, env) => (name, env)
  | none => (testName, tabName)

/-! ### Natural ordering and the infra-info ranker

`calculateInfraInfo` sorts `(cause, count)` pairs with `sort.Slice` using
the comparator "descending by count, ties ascending by
`sortorder.NaturalLess`".  The `vbom.ml/util/sortorder` library is a
third-party dependency whose source is not under `src/`, so the natural
ordering is modelled from the spec: "ascending by cause string using natural
(human) ordering (digit-aware comparison, not pure byte-lexicographic)" —
strings are compared as alternating runs of digits (compared numerically,
with the literal digit run breaking value ties) and single non-digit
characters (compared by code point, digits ordering before non-digits).
A final tie-break on the raw byte string makes the comparator a total order
on distinct pairs, which the spec demands of the ranking ("stable
deterministic ranking", §9: avoid relying on incidental map order); it can
only fire on counts-equal, natural-order-equal distinct keys. -/

/-- ASCII digit test used by the natural ordering. -/
def isDigitCh (c : Char) : Bool :=
  '0' ≤ c && c ≤ '9'

/-- Numeric value of a digit run. -/
def valOf (run : List Char) : ℕ :=
  run.foldl (fun a c => 10 * a + (c.toNat - '0'.toNat)) 0

/-- A token of the natural ordering: a maximal digit run (with its numeric
value and its literal digits) or a single non-digit character. -/
inductive Tok where
  | num (val : ℕ) (run : List Char)
  | ch (c : Char)
  deriving DecidableEq, Repr

/-- Tokenizer worker; the fuel (initially the string length) dominates the
number of characters still to consume, keeping the recursion structural. -/
def tokenizeAux : ℕ → List Char → List Tok
  | 0, _ => []
  | _ + 1, [] => []
  | fuel + 1, c :: cs =>
    if isDigitCh c then
      let run := c :: cs.takeWhile isDigitCh
      Tok.num (valOf run) run :: tokenizeAux fuel (cs.dropWhile isDigitCh)
    else
      Tok.ch c :: tokenizeAux fuel cs

/-- Split a string into natural-ordering tokens. -/
def tokenize (l : List Char) : List Tok :=
  tokenizeAux l.length l

/-- Generic strict lexicographic extension of a strict order `lt` to lists:
shorter prefixes come first, and comparison continues past heads that are
ties (`lt` fails both ways). -/
def lexLT {α : Type} (lt : α → α → Bool) : List α → List α → Bool
  | [], [] => false
  | [], _ :: _ => true
  | _ :: _, [] => false
  | a :: as, b :: bs => lt a b || (!lt b a && lexLT lt as bs)

/-- Generic strict lexicographic product of two strict orders. -/
def ltLex2 {α β : Type} (ltA : α → α → Bool) (ltB : β → β → Bool)
    (x y : α × β) : Bool :=
  ltA x.1 y.1 || (!ltA y.1 x.1 && ltB x.2 y.2)

/-- Strict code-point order on characters. -/
def charLT (c d : Char) : Bool :=
  decide (c < d)

/-- Strict byte-lexicographic order on character lists. -/
def clLT : List Char → List Char → Bool :=
  lexLT charLT

/-- Strict order on tokens: digit runs before non-digits; digit runs by
numeric value, ties by the literal run; characters by code point. -/
def tokLT : Tok → Tok → Bool
  | .num v1 r1, .num v2 r2 => decide (v1 < v2) || (decide (v1 = v2) && clLT r1 r2)
  | .num _ _, .ch _ => true
  | .ch _, .num _ _ => false
  | .ch c1, .ch c2 => charLT c1 c2

/-- Strict natural order on token lists. -/
def tlLT : List Tok → List Tok → Bool :=
  lexLT tokLT

/-- Sort key of a `(cause, count)` pair: count (descending), then the
natural-order tokens of the cause, then the raw cause characters. -/
def tripleOf (p : String × ℕ) : ℕ × (List Tok × List Char) :=
  (p.2, (tokenize p.1.data, p.1.data))

/-- Reversed strict order on counts (larger counts sort first). -/
def natGT (a b : ℕ) : Bool :=
  decide (b < a)

/-- The `sort.Slice` comparator of `calculateInfraInfo`: strictly less when
the count is larger, or counts tie and the cause is naturally smaller. -/
def pairLT (a b : String × ℕ) : Bool :=
  ltLex2 natGT (ltLex2 tlLT clLT) (tripleOf a) (tripleOf b)

/-- The non-strict form of `pairLT`, used to drive the sort. -/
def infraLE (a b : String × ℕ) : Prop :=
  pairLT b a = false

instance : DecidableRel infraLE := fun a b =>
  inferInstanceAs (Decidable (pairLT b a = false))

/-- Two-digit zero-padded decimal. -/
def pad2 (n : ℕ) : String :=
  if n < 10 then "0" ++ toString n else toString n

/-- Round a rational to the nearest integer (`⌊q + 1/2⌋`), computed on the
numerator and denominator so that it evaluates by kernel reduction. -/
def roundQ (q : ℚ) : ℤ :=
  Int.fdiv (2 * q.num + q.den) (2 * q.den)

/-- `fmt.Sprintf("%.2f", q)` for the nonnegative percentages produced here:
the exact rational rounded to hundredths, printed with two decimals. -/
def fmt2 (q : ℚ) : String :=
  let n := (roundQ (q * 100)).toNat
  toString (n / 100) ++ "." ++ pad2 (n % 100)

/-- One rendered ranking entry: `item.s + " %.2f%% "` of its percentage. -/
def renderEntry (failedCount : ℕ) (item : String × ℕ) : String :=
  item.1 ++ " " ++ fmt2 (100 * (item.2 : ℚ) / (failedCount : ℚ)) ++ "% "

/-- Go `unicode.IsSpace` on the characters `strings.TrimSpace` can meet in
a rendered ranking string (ASCII whitespace; the Latin-1 additions are
included for faithfulness). -/
def isSpaceGo (c : Char) : Bool :=
  c = ' ' || c = '\t' || c = '\n' || c = '\x0b' || c = '\x0c' || c = '\r' ||
    c = '\x85' || c = '\xa0'

/-- `strings.TrimSpace`: drop whitespace from both ends. -/
def trimSpace (s : String) : String :=
  (((s.data.dropWhile isSpaceGo).reverse.dropWhile isSpaceGo).reverse).asString

/-- Go `calculateInfraInfo`: rank the `(cause, count)` pairs (descending
count, natural-order ties), render each as `"<cause> <pct>% "`, join and
trim; empty when there are no issues or no infra failures. -/
def calculateInfraInfo (issues : List (String × ℕ)) (failedCount : ℕ) :
    String :=
  let result :=
    if issues.length > 0 ∧ failedCount > 0 then
      (List.insertionSort infraLE issues).map (renderEntry failedCount)
    else []
  trimSpace (String.join result)

/-! ### The flakiness calculator, report builder and analyzer -/

/-- Go `calculateNaiveFlakiness`: reject rows with fewer than `minRuns`
pass/fail runs, otherwise build the per-row `TestInfo`. -/
def calculateNaiveFlakiness (test : Result) (minRuns : ℤ) : TestInfo × Bool :=
  let failedCount := test.failed
  let totalCount := test.passed + test.failed
  let totalCountWithInfra := totalCount + test.failedInfraCount
  if (totalCount : ℤ) < minRuns then (TestInfo.zero, false)
  else
    ({ name := "", env := "",
       flakiness := 100 * (failedCount : ℚ) / (totalCount : ℚ),
       totalRuns := totalCount,
       totalRunsWithInfra := totalCountWithInfra,
       passedRuns := test.passed,
       failedRuns := test.failed,
       failedInfraRuns := test.failedInfraCount,
       flakyRuns := test.flakyCount,
       infraInfo := calculateInfraInfo test.infraFailures test.failedInfraCount },
     true)

/-- The bucket-assignment loop body of `createHealthiness`: walk the buckets
in their creation order and bump the first whose threshold the flakiness
strictly exceeds (`break` after the bump); bump none otherwise. -/
def assignBucket (f : ℚ) : List FlakyBucket → List FlakyBucket
  | [] => []
  | bucket :: rest =>
    if f > bucket.threshold then
      { bucket with tests := bucket.tests + 1 } :: rest
    else
      bucket :: assignBucket f rest

/-- Descending sort of the `HEALTHY_RANGE` keys
(`sort.Sort(sort.Reverse(sort.IntSlice(keys)))`). -/
def sortKeysDesc (keys : List ℤ) : List ℤ :=
  List.insertionSort (fun a b : ℤ => a ≥ b) keys

/-- The freshly created buckets, one per `HEALTHY_RANGE` key in descending
threshold order, each with zero tests. -/
def freshBuckets (keys : List ℤ) : List FlakyBucket :=
  (sortKeysDesc keys).map fun threshold => { threshold := (threshold : ℚ), tests := 0 }

/-- Go `createHealthiness`: create the descending buckets, then for each
merged `TestInfo` append it to `tests`, add its flakiness to the running sum
and classify it into a bucket; fill in the totals and copy `infraIssues`. -/
def createHealthiness (startDate endDate : ℤ) (results : List Result)
    (testByEnv : List (String × TestInfo)) (infraIssues : List (String × ℕ)) :
    Healthiness :=
  let state :=
    testByEnv.foldl
      (fun (acc : List TestInfo × ℚ × List FlakyBucket) kv =>
        (acc.1 ++ [kv.2], acc.2.1 + kv.2.flakiness,
         assignBucket kv.2.flakiness acc.2.2))
      ([], 0, freshBuckets (HEALTHY_RANGE.map Prod.fst))
  { startDate := startDate, endDate := endDate,
    tests := state.1,
    totalTests := state.1.length,
    totalJailedTests := 0,
    averageFlakiness :=
      if state.1.length > 0 then state.2.1 / (state.1.length : ℚ) else 0,
    flakyBuckets := state.2.2,
    infraIssues := infraIssues,
    totalConfigs := results.length }

/-- The infra-issue accumulation a single row performs inside
`naiveFlakiness`: every `(cause, count)` in its `infraFailures` bumps the
global map at key `"<rawRowName>-<cause>"`. -/
def accumInfra (infraIssues : List (String × ℕ)) (test : Result) :
    List (String × ℕ) :=
  if test.infraFailures.length > 0 then
    test.infraFailures.foldl
      (fun m p => bumpBy m (test.name ++ "-" ++ p.1) p.2) infraIssues
  else infraIssues

/-- The merge of one computed `TestInfo` into `testByEnv`
(`if curr, exists := testByEnv[name]; !exists || curr.flakiness < new.flakiness`). -/
def mergeTestInfo (testByEnv : List (String × TestInfo)) (name : String)
    (testInfo : TestInfo) : List (String × TestInfo) :=
  match lookupA testByEnv name with
  | none => setA testByEnv name testInfo
  | some curr =>
    if curr.flakiness < testInfo.flakiness then setA testByEnv name testInfo
    else testByEnv

/-- The per-row loop body of `naiveFlakiness`, acting on the pair
`(testByEnv, infraIssues)`. -/
def naiveStep (tab : String) (minRuns : ℤ)
    (st : List (String × TestInfo) × List (String × ℕ)) (test : Result) :
    List (String × TestInfo) × List (String × ℕ) :=
  let ne := getNameAndEnvFromTest test.name tab
  let infraIssues := accumInfra st.2 test
  let r := calculateNaiveFlakiness test minRuns
  if r.2 then
    (mergeTestInfo st.1 ne.1 { r.1 with name := ne.1, env := ne.2 }, infraIssues)
  else
    (st.1, infraIssues)

/-- The whole row loop of `naiveFlakiness`. -/
def naiveLoop (results : List Result) (minRuns : ℤ) (tab : String) :
    List (String × TestInfo) × List (String × ℕ) :=
  results.foldl (naiveStep tab minRuns) ([], [])

/-- Go `naiveFlakiness`. -/
def naiveFlakiness (results : List Result) (minRuns : ℤ)
    (startDate endDate : ℤ) (tab : String) : Healthiness :=
  let st := naiveLoop results minRuns tab
  createHealthiness startDate endDate results st.1 st.2

/-- Go `analyzeFlakinessFromResults`. -/
def analyzeFlakinessFromResults (results : List Result)
    (startTime endTime : ℤ) (tab : String) : Healthiness :=
  naiveFlakiness results MIN_RUNS startTime endTime tab

/-- Go `CalculateHealthiness`, the package entry point. -/
def CalculateHealthiness (grid : Grid) (startTime endTime : ℤ) (tab : String) :
    Healthiness :=
  analyzeFlakinessFromResults (parseGrid grid startTime endTime)
    startTime endTime tab

/-- Concrete fixture: environment `e1` of base name `a`, one pass and one
fail (flakiness 50). -/
def wRow1 : Result :=
  { name := "a - [e1]", passed := 1, failed := 1, flakyCount := 0,
    averageFlakiness := 0, failedInfraCount := 0, infraFailures := [] }

/-- Concrete fixture: environment `e2` of the same base name `a`, also with
flakiness 50 (a flakiness tie with `wRow1`). -/
def wRow2 : Result :=
  { name := "a - [e2]", passed := 1, failed := 1, flakyCount := 0,
    averageFlakiness := 0, failedInfraCount := 0, infraFailures := [] }

/-- Concrete fixture: a row with no pass/fail runs but one infra failure,
rejected whenever `minRuns` is positive. -/
def wRejected : Result :=
  { name := "r", passed := 0, failed := 0, flakyCount := 0,
    averageFlakiness := 0, failedInfraCount := 1,
    infraFailures := [("cause", 1)] }

/-! ### Properties of the ranking comparator -/

theorem lexLT_irrefl {α : Type} (lt : α → α → Bool)
    (hirr : ∀ a, lt a a = false) : ∀ l, lexLT lt l l = false
  | [] => rfl
  | a :: as => by simp [lexLT, hirr a, lexLT_irrefl lt hirr as]

theorem lexLT_tri {α : Type} (lt : α → α → Bool)
    (htri : ∀ a b, lt a b = false → lt b a = false → a = b) :
    ∀ l1 l2, lexLT lt l1 l2 = false → lexLT lt l2 l1 = false → l1 = l2
  | [], [], _, _ => rfl
  | [], _ :: _, h1, _ => by simp [lexLT] at h1
  | _ :: _, [], _, h2 => by simp [lexLT] at h2
  | a :: as, b :: bs, h1, h2 => by
    simp only [lexLT, Bool.or_eq_false_iff, Bool.and_eq_false_iff,
      Bool.not_eq_false'] at h1 h2
    obtain ⟨hab, h1r⟩ := h1
    obtain ⟨hba, h2r⟩ := h2
    obtain rfl : a = b := htri a b hab hba
    rcases h1r with h | h1r
    · exact absurd h (by simp [hab])
    rcases h2r with h | h2r
    · exact absurd h (by simp [hab])
    rw [lexLT_tri lt htri as bs h1r h2r]

theorem lexLT_trans {α : Type} (lt : α → α → Bool)
    (htri : ∀ a b, lt a b = false → lt b a = false → a = b)
    (htrans : ∀ a b c, lt a b = true → lt b c = true → lt a c = true) :
    ∀ l1 l2 l3, lexLT lt l1 l2 = true → lexLT lt l2 l3 = true →
      lexLT lt l1 l3 = true
  | [], l2, l3, h1, h2 => by
    cases l2 with
    | nil => simp [lexLT] at h1
    | cons b bs =>
      cases l3 with
      | nil => simp [lexLT] at h2
      | cons c cs => simp [lexLT]
  | _ :: _, [], _, h1, _ => by simp [lexLT] at h1
  | _ :: _, _ :: _, [], _, h2 => by simp [lexLT] at h2
  | a :: as, b :: bs, c :: cs, h1, h2 => by
    simp only [lexLT, Bool.or_eq_true, Bool.and_eq_true,
      Bool.not_eq_true'] at h1 h2 ⊢
    by_cases hab : lt a b = true
    · by_cases hbc : lt b c = true
      · exact Or.inl (htrans a b c hab hbc)
      · rcases h2 with h | ⟨hcb, _⟩
        · exact absurd h hbc
        · obtain rfl : b = c := htri b c (by simpa using hbc) hcb
          exact Or.inl hab
    · rcases h1 with h | ⟨hba, h1r⟩
      · exact absurd h hab
      · obtain rfl : a = b := htri a b (by simpa using hab) hba
        rcases h2 with h | ⟨hca, h2r⟩
        · exact Or.inl h
        · exact Or.inr ⟨hca, lexLT_trans lt htri htrans as bs cs h1r h2r⟩

theorem ltLex2_irrefl {α β : Type} (ltA : α → α → Bool) (ltB : β → β → Bool)
    (hA : ∀ a, ltA a a = false) (hB : ∀ b, ltB b b = false) (x : α × β) :
    ltLex2 ltA ltB x x = false := by
  simp [ltLex2, hA, hB]

theorem ltLex2_tri {α β : Type} (ltA : α → α → Bool) (ltB : β → β → Bool)
    (hAtri : ∀ a b, ltA a b = false → ltA b a = false → a = b)
    (hBtri : ∀ a b, ltB a b = false → ltB b a = false → a = b) :
    ∀ x y, ltLex2 ltA ltB x y = false → ltLex2 ltA ltB y x = false → x = y := by
  rintro ⟨a1, b1⟩ ⟨a2, b2⟩ h1 h2
  simp only [ltLex2, Bool.or_eq_false_iff, Bool.and_eq_false_iff,
    Bool.not_eq_false'] at h1 h2
  obtain ⟨ha12, h1r⟩ := h1
  obtain ⟨ha21, h2r⟩ := h2
  obtain rfl : a1 = a2 := hAtri a1 a2 ha12 ha21
  rcases h1r with h | h1r
  · exact absurd h (by simp [ha12])
  rcases h2r with h | h2r
  · exact absurd h (by simp [ha12])
  obtain rfl : b1 = b2 := hBtri b1 b2 h1r h2r
  rfl

theorem ltLex2_trans {α β : Type} (ltA : α → α → Bool) (ltB : β → β → Bool)
    (hAtri : ∀ a b, ltA a b = false → ltA b a = false → a = b)
    (hAtrans : ∀ a b c, ltA a b = true → ltA b c = true → ltA a c = true)
    (hBtrans : ∀ a b c, ltB a b = true → ltB b c = true → ltB a c = true) :
    ∀ x y z, ltLex2 ltA ltB x y = true → ltLex2 ltA ltB y z = true →
      ltLex2 ltA ltB x z = true := by
  rintro ⟨a1, b1⟩ ⟨a2, b2⟩ ⟨a3, b3⟩ h1 h2
  simp only [ltLex2, Bool.or_eq_true, Bool.and_eq_true,
    Bool.not_eq_true'] at h1 h2 ⊢
  by_cases h12 : ltA a1 a2 = true
  · by_cases h23 : ltA a2 a3 = true
    · exact Or.inl (hAtrans a1 a2 a3 h12 h23)
    · rcases h2 with h | ⟨h32, _⟩
      · exact absurd h h23
      · obtain rfl : a2 = a3 := hAtri a2 a3 (by simpa using h23) h32
        exact Or.inl h12
  · rcases h1 with h | ⟨h21, h1r⟩
    · exact absurd h h12
    · obtain rfl : a1 = a2 := hAtri a1 a2 (by simpa using h12) h21
      rcases h2 with h | ⟨h31, h2r⟩
      · exact Or.inl h
      · exact Or.inr ⟨h31, hBtrans b1 b2 b3 h1r h2r⟩

theorem charLT_irrefl (c : Char) : charLT c c = false := by
  simp [charLT]

theorem charLT_tri (c d : Char) (h1 : charLT c d = false)
    (h2 : charLT d c = false) : c = d := by
  simp only [charLT, decide_eq_false_iff_not, not_lt] at h1 h2
  exact le_antisymm h2 h1

theorem charLT_trans (c d e : Char) (h1 : charLT c d = true)
    (h2 : charLT d e = true) : charLT c e = true := by
  simp only [charLT, decide_eq_true_eq] at h1 h2 ⊢
  exact lt_trans h1 h2

theorem clLT_irrefl (l : List Char) : clLT l l = false :=
  lexLT_irrefl charLT charLT_irrefl l

theorem clLT_tri (l1 l2 : List Char) (h1 : clLT l1 l2 = false)
    (h2 : clLT l2 l1 = false) : l1 = l2 :=
  lexLT_tri charLT charLT_tri l1 l2 h1 h2

theorem clLT_trans (l1 l2 l3 : List Char) (h1 : clLT l1 l2 = true)
    (h2 : clLT l2 l3 = true) : clLT l1 l3 = true :=
  lexLT_trans charLT charLT_tri charLT_trans l1 l2 l3 h1 h2

theorem tokLT_irrefl (t : Tok) : tokLT t t = false := by
  cases t with
  | num v r => simp [tokLT, clLT_irrefl]
  | ch c => simp [tokLT, charLT_irrefl]

theorem tokLT_tri (t1 t2 : Tok) (h1 : tokLT t1 t2 = false)
    (h2 : tokLT t2 t1 = false) : t1 = t2 := by
  cases t1 with
  | num v1 r1 =>
    cases t2 with
    | num v2 r2 =>
      simp only [tokLT, Bool.or_eq_false_iff, Bool.and_eq_false_iff,
        decide_eq_false_iff_not, not_lt] at h1 h2
      obtain ⟨h12, h1r⟩ := h1
      obtain ⟨h21, h2r⟩ := h2
      obtain rfl : v1 = v2 := le_antisymm h21 h12
      rcases h1r with h | h1r
      · simp at h
      rcases h2r with h | h2r
      · simp at h
      rw [clLT_tri r1 r2 h1r h2r]
    | ch c => simp [tokLT] at h1
  | ch c1 =>
    cases t2 with
    | num v r => simp [tokLT] at h2
    | ch c2 => rw [charLT_tri c1 c2 h1 h2]

theorem tokLT_trans (t1 t2 t3 : Tok) (h1 : tokLT t1 t2 = true)
    (h2 : tokLT t2 t3 = true) : tokLT t1 t3 = true := by
  cases t1 with
  | num v1 r1 =>
    cases t3 with
    | ch c => cases t2 <;> simp [tokLT]
    | num v3 r3 =>
      cases t2 with
      | ch c => simp [tokLT] at h2
      | num v2 r2 =>
        simp only [tokLT, Bool.or_eq_true, Bool.and_eq_true,
          decide_eq_true_eq] at h1 h2 ⊢
        rcases h1 with h1 | ⟨rfl, h1r⟩
        · rcases h2 with h2 | ⟨rfl, _⟩
          · exact Or.inl (lt_trans h1 h2)
          · exact Or.inl h1
        · rcases h2 with h2 | ⟨rfl, h2r⟩
          · exact Or.inl h2
          · exact Or.inr ⟨rfl, clLT_trans r1 r2 r3 h1r h2r⟩
  | ch c1 =>
    cases t2 with
    | num v r => simp [tokLT] at h1
    | ch c2 =>
      cases t3 with
      | num v r => simp [tokLT] at h2
      | ch c3 => exact charLT_trans c1 c2 c3 h1 h2

theorem tlLT_irrefl (l : List Tok) : tlLT l l = false :=
  lexLT_irrefl tokLT tokLT_irrefl l

theorem tlLT_tri (l1 l2 : List Tok) (h1 : tlLT l1 l2 = false)
    (h2 : tlLT l2 l1 = false) : l1 = l2 :=
  lexLT_tri tokLT tokLT_tri l1 l2 h1 h2

theorem tlLT_trans (l1 l2 l3 : List Tok) (h1 : tlLT l1 l2 = true)
    (h2 : tlLT l2 l3 = true) : tlLT l1 l3 = true :=
  lexLT_trans tokLT tokLT_tri tokLT_trans l1 l2 l3 h1 h2

theorem natGT_irrefl (n : ℕ) : natGT n n = false := by simp [natGT]

theorem natGT_tri (m n : ℕ) (h1 : natGT m n = false) (h2 : natGT n m = false) :
    m = n := by
  simp only [natGT, decide_eq_false_iff_not, not_lt] at h1 h2
  exact le_antisymm h1 h2

theorem natGT_trans (m n k : ℕ) (h1 : natGT m n = true)
    (h2 : natGT n k = true) : natGT m k = true := by
  simp only [natGT, decide_eq_true_eq] at h1 h2 ⊢
  exact lt_trans h2 h1

/-- The inner comparator of `pairLT` (natural tokens, then raw bytes). -/
theorem innerLT_tri (x y : List Tok × List Char)
    (h1 : ltLex2 tlLT clLT x y = false) (h2 : ltLex2 tlLT clLT y x = false) :
    x = y :=
  ltLex2_tri tlLT clLT tlLT_tri clLT_tri x y h1 h2

theorem innerLT_trans (x y z : List Tok × List Char)
    (h1 : ltLex2 tlLT clLT x y = true) (h2 : ltLex2 tlLT clLT y z = true) :
    ltLex2 tlLT clLT x z = true :=
  ltLex2_trans tlLT clLT tlLT_tri tlLT_trans clLT_trans x y z h1 h2

theorem tripleOf_inj (a b : String × ℕ) (h : tripleOf a = tripleOf b) :
    a = b := by
  obtain ⟨s1, n1⟩ := a
  obtain ⟨s2, n2⟩ := b
  simp only [tripleOf, Prod.mk.injEq] at h
  obtain ⟨rfl, -, hdata⟩ := h
  obtain ⟨d1⟩ := s1
  obtain ⟨d2⟩ := s2
  simp only at hdata
  rw [hdata]

theorem pairLT_irrefl (a : String × ℕ) : pairLT a a = false :=
  ltLex2_irrefl natGT (ltLex2 tlLT clLT) natGT_irrefl
    (ltLex2_irrefl tlLT clLT tlLT_irrefl clLT_irrefl) (tripleOf a)

theorem pairLT_tri (a b : String × ℕ) (h1 : pairLT a b = false)
    (h2 : pairLT b a = false) : a = b :=
  tripleOf_inj a b
    (ltLex2_tri natGT (ltLex2 tlLT clLT) natGT_tri innerLT_tri
      (tripleOf a) (tripleOf b) h1 h2)

theorem pairLT_trans (a b c : String × ℕ) (h1 : pairLT a b = true)
    (h2 : pairLT b c = true) : pairLT a c = true :=
  ltLex2_trans natGT (ltLex2 tlLT clLT) natGT_tri natGT_trans innerLT_trans
    (tripleOf a) (tripleOf b) (tripleOf c) h1 h2

theorem pairLT_asymm (a b : String × ℕ) (h1 : pairLT a b = true)
    (h2 : pairLT b a = true) : False := by
  have := pairLT_trans a b a h1 h2
  rw [pairLT_irrefl a] at this
  exact Bool.false_ne_true this

instance : IsTotal (String × ℕ) infraLE :=
  ⟨fun a b => by
    unfold infraLE
    cases hab : pairLT a b with
    | false => exact Or.inr rfl
    | true =>
      cases hba : pairLT b a with
      | false => exact Or.inl rfl
      | true => exact (pairLT_asymm a b hab hba).elim⟩

instance : IsTrans (String × ℕ) infraLE :=
  ⟨fun a b c hab hbc => by
    unfold infraLE at hab hbc ⊢
    by_contra h
    have hca : pairLT c a = true := by
      revert h
      cases pairLT c a <;> simp
    by_cases hbc2 : pairLT b c = true
    · have h2 := pairLT_trans b c a hbc2 hca
      rw [hab] at h2
      exact Bool.false_ne_true h2
    · have hbc3 : pairLT b c = false := by
        revert hbc2
        cases pairLT b c <;> simp
      obtain rfl : c = b := pairLT_tri c b hbc hbc3
      rw [hab] at hca
      exact Bool.false_ne_true hca⟩

instance : IsAntisymm (String × ℕ) infraLE :=
  ⟨fun a b hab hba => pairLT_tri a b hba hab⟩

theorem foldl_append_data (l : List String) :
    ∀ acc : String, (l.foldl (fun r s => r ++ s) acc).data =
      acc.data ++ (l.map String.data).flatten := by
  induction l with
  | nil => intro acc; simp
  | cons s ss ih => intro acc; simp [ih, String.data_append]

theorem join_data (l : List String) :
    (String.join l).data = (l.map String.data).flatten := by
  have h := foldl_append_data l ""
  simpa [String.join] using h

theorem asString_eq_empty_iff (l : List Char) : l.asString = "" ↔ l = [] := by
  constructor
  · intro h
    have h2 : l.asString.data = ("" : String).data := by rw [h]
    exact h2
  · rintro rfl
    rfl

theorem trimSpace_eq_empty_iff (s : String) :
    trimSpace s = "" ↔ ∀ c ∈ s.data, isSpaceGo c = true := by
  unfold trimSpace
  rw [asString_eq_empty_iff, List.reverse_eq_nil_iff, List.dropWhile_eq_nil_iff]
  constructor
  · intro h c hc
    have hsplit := List.takeWhile_append_dropWhile (p := isSpaceGo)
      (l := s.data)
    rw [← hsplit] at hc
    rcases List.mem_append.mp hc with h1 | h1
    · exact List.mem_takeWhile_imp h1
    · exact h c (List.mem_reverse.mpr h1)
  · intro h c hc
    exact h c ((List.dropWhile_sublist _).subset (List.mem_reverse.mp hc))

theorem percent_mem_renderEntry (fc : ℕ) (p : String × ℕ) :
    '%' ∈ (renderEntry fc p).data := by
  unfold renderEntry
  simp only [String.data_append]
  refine List.mem_append.mpr (Or.inr ?_)
  decide

theorem calculateInfraInfo_ne_empty (issues : List (String × ℕ)) (fc : ℕ)
    (hne : issues ≠ []) (hfc : fc ≠ 0) : calculateInfraInfo issues fc ≠ "" := by
  unfold calculateInfraInfo
  have hcond : issues.length > 0 ∧ fc > 0 :=
    ⟨List.length_pos.mpr hne, Nat.pos_of_ne_zero hfc⟩
  rw [if_pos hcond]
  have hsne : List.insertionSort infraLE issues ≠ [] := by
    intro h
    exact hne (((List.perm_insertionSort infraLE issues).symm.trans
      (h ▸ List.Perm.refl _)).eq_nil)
  obtain ⟨p, rest, hcons⟩ := List.exists_cons_of_ne_nil hsne
  intro hemp
  have hall := (trimSpace_eq_empty_iff _).mp hemp
  have hmem : '%' ∈ (String.join
      ((List.insertionSort infraLE issues).map (renderEntry fc))).data := by
    rw [join_data, hcons]
    simp only [List.map_cons, List.map_map, List.flatten_cons]
    exact List.mem_append.mpr (Or.inl (percent_mem_renderEntry fc p))
  have := hall '%' hmem
  simp [isSpaceGo] at this

/-- C10: the rendered infra-issue ranking is a function of the map contents
alone — any two enumerations (permutations) of the same `(cause, count)`
pairs produce the identical output string. -/
theorem calculateInfraInfo_deterministic (l1 l2 : List (String × ℕ)) (fc : ℕ)
    (h : l1.Perm l2) : calculateInfraInfo l1 fc = calculateInfraInfo l2 fc := by
  have hsort : List.insertionSort infraLE l1 = List.insertionSort infraLE l2 :=
    List.eq_of_perm_of_sorted
      ((List.perm_insertionSort infraLE l1).trans
        (h.trans (List.perm_insertionSort infraLE l2).symm))
      (List.sorted_insertionSort infraLE l1)
      (List.sorted_insertionSort infraLE l2)
  unfold calculateInfraInfo
  rw [h.length_eq, hsort]

/-- Witness for C10 at a concrete permuted pair of enumerations. -/
theorem calculateInfraInfo_deterministic_witness :
    calculateInfraInfo [("a", 1), ("b", 2)] 5 =
      calculateInfraInfo [("b", 2), ("a", 1)] 5 :=
  calculateInfraInfo_deterministic [("a", 1), ("b", 2)] [("b", 2), ("a", 1)] 5
    (by decide)

/-- C5: `calculateInfraInfo` returns the empty string iff the issues map is
empty or `failedCount` is zero; otherwise it renders each `(cause, count)`
pair as the cause, a space, `100*count/failedCount` with two decimals and a
percent sign, joined in the comparator order of `infraLE` (descending count,
ties ascending natural order) and trimmed, as on the two spec examples. -/
theorem calculateInfraInfo_ranking :
    (∀ (issues : List (String × ℕ)) (fc : ℕ),
      calculateInfraInfo issues fc =
        if issues.length > 0 ∧ fc > 0 then
          trimSpace (String.join
            ((List.insertionSort infraLE issues).map (renderEntry fc)))
        else "") ∧
    (∀ (issues : List (String × ℕ)) (fc : ℕ),
      calculateInfraInfo issues fc = "" ↔ (issues = [] ∨ fc = 0)) ∧
    calculateInfraInfo [("infra1", 2), ("infra2", 2)] 10 =
      "infra1 20.00% infra2 20.00%" ∧
    calculateInfraInfo [("infra1", 2), ("infra2", 7)] 10 =
      "infra2 70.00% infra1 20.00%" := by
  refine ⟨?_, ?_, by decide, by decide⟩
  · intro issues fc
    unfold calculateInfraInfo
    split <;> rfl
  · intro issues fc
    constructor
    · intro h
      by_contra hno
      push_neg at hno
      exact calculateInfraInfo_ne_empty issues fc hno.1 hno.2 h
    · rintro (rfl | rfl)
      · unfold calculateInfraInfo
        rw [if_neg (by simp)]
        rfl
      · unfold calculateInfraInfo
        rw [if_neg (by simp)]
        rfl

/-- C9: `isWithinTimeFrame` is the inclusive window test
`startTime <= column.started <= endTime`, with the five spec instances for
the window `[0, 2]`. -/
theorem isWithinTimeFrame_inclusive :
    (∀ (column : Column) (startTime endTime : ℤ),
      isWithinTimeFrame column startTime endTime = true ↔
        ((startTime : ℚ) ≤ column.started ∧ column.started ≤ (endTime : ℚ))) ∧
    isWithinTimeFrame ⟨0⟩ 0 2 = true ∧
    isWithinTimeFrame ⟨1⟩ 0 2 = true ∧
    isWithinTimeFrame ⟨2⟩ 0 2 = true ∧
    isWithinTimeFrame ⟨-1⟩ 0 2 = false ∧
    isWithinTimeFrame ⟨4⟩ 0 2 = false := by
  refine ⟨?_, by decide, by decide, by decide, by decide, by decide⟩
  intro c st et
  simp [isWithinTimeFrame]

theorem string_data_eq_nil_iff (s : String) : s.data = [] ↔ s = "" := by
  obtain ⟨d⟩ := s
  constructor
  · rintro rfl
    rfl
  · intro h
    exact congrArg String.data h

/-- C6: `categorizeFailure` bumps `failed` (infra fields untouched) exactly
when the message is empty or not a bare word-character token, and otherwise
bumps `failedInfraCount` and the message's `infraFailures` entry (leaving
`failed` untouched). -/
theorem categorizeFailure_classification :
    (∀ (counts : Result) (message : String),
      categorizeFailure counts message =
        if message = "" ∨
            ¬(message.data ≠ [] ∧ message.data.all isWordChar = true) then
          { counts with failed := counts.failed + 1 }
        else
          { counts with
            failedInfraCount := counts.failedInfraCount + 1,
            infraFailures := bumpBy counts.infraFailures message 1 }) ∧
    categorizeFailure Result.empty "infra_fail_1" =
      { Result.empty with failedInfraCount := 1,
                          infraFailures := [("infra_fail_1", 1)] } ∧
    categorizeFailure Result.empty "" = { Result.empty with failed := 1 } ∧
    categorizeFailure Result.empty "exit status 1" =
      { Result.empty with failed := 1 } := by
  refine ⟨?_, by decide, by decide, by decide⟩
  intro counts message
  unfold categorizeFailure isInfraToken
  by_cases h0 : message = ""
  · subst h0
    simp
  · have hd : ¬message.data = [] := fun h => h0 ((string_data_eq_nil_iff _).mp h)
    by_cases hall : message.data.all isWordChar = true
    · rw [if_neg, if_neg]
      · simp [h0, hd, hall]
      · simp [h0, hd, hall, List.isEmpty_iff]
    · rw [if_pos, if_pos]
      · simp [hall]
      · simp [h0, hall]

/-- C1: `calculateNaiveFlakiness` returns not-ok with the zero `TestInfo`
exactly when `passed + failed < minRuns`, and otherwise ok with
`totalRuns = passed + failed`, `flakiness = 100*failed/(passed+failed)`,
`totalRunsWithInfra = totalRuns + failedInfraCount` and the run counters
copied from the `Result`. -/
theorem calculateNaiveFlakiness_spec (test : Result) (minRuns : ℤ) :
    calculateNaiveFlakiness test minRuns =
      if ((test.passed + test.failed : ℕ) : ℤ) < minRuns then
        (TestInfo.zero, false)
      else
        ({ name := "", env := "",
           totalRuns := test.passed + test.failed,
           totalRunsWithInfra := test.passed + test.failed + test.failedInfraCount,
           passedRuns := test.passed, failedRuns := test.failed,
           failedInfraRuns := test.failedInfraCount,
           flakyRuns := test.flakyCount,
           flakiness := 100 * (test.failed : ℚ) /
             ((test.passed : ℚ) + (test.failed : ℚ)),
           infraInfo := calculateInfraInfo test.infraFailures
             test.failedInfraCount }, true) := by
  unfold calculateNaiveFlakiness
  dsimp only
  by_cases h : ((test.passed + test.failed : ℕ) : ℤ) < minRuns
  · rw [if_pos h, if_pos h]
  · rw [if_neg h, if_neg h]
    simp [Nat.cast_add]

/-- C2: `parseGrid` emits, for exactly the rows whose in-window scan shows
`passed + failed + flakyCount > 0`, the scanned counts with the row's name
(the scan skipping out-of-window columns and NO_RESULT, classifying FAIL,
counting PASS, and folding FLAKY into the 50.0 running mean); on the spec
section 8 row it produces exactly the expected counts. -/
theorem parseGrid_spec :
    (∀ (grid : Grid) (startTime endTime : ℤ),
      parseGrid grid startTime endTime =
        grid.rows.filterMap fun row =>
          let c := rowCounts grid row startTime endTime
          if c.passed + c.failed + c.flakyCount > 0 then
            some { c with name := row.name }
          else none) ∧
    parseGrid
      { columns := [⟨0⟩, ⟨1⟩, ⟨2⟩, ⟨2⟩],
        rows := [{ name := "test_1",
                   results := [(.pass, 1), (.fail, 1), (.flaky, 1), (.fail, 1)],
                   messages := ["", "", "", "infra_fail_1"] }] } 0 2 =
      [{ name := "test_1", passed := 1, failed := 1, flakyCount := 1,
         averageFlakiness := 50, failedInfraCount := 1,
         infraFailures := [("infra_fail_1", 1)] }] := by
  refine ⟨?_, by decide⟩
  intro grid st et
  unfold parseGrid
  refine congrArg (fun f => List.filterMap f grid.rows) (funext fun row => ?_)
  dsimp only
  exact if_congr (by omega) rfl rfl

/-- C7: `getNameAndEnvFromTest` returns the two captures of `JAILED_REGEX`
when it matches (`findJailed`), and falls back to the unchanged test name
paired with the tab name when it does not, as on the two spec examples. -/
theorem getNameAndEnvFromTest_spec :
    (∀ (testName tabName name env : String),
      findJailed testName = some (name, env) →
      getNameAndEnvFromTest testName tabName = (name, env)) ∧
    (∀ testName tabName, findJailed testName = none →
      getNameAndEnvFromTest testName tabName = (testName, tabName)) ∧
    getNameAndEnvFromTest "bleh" "defaultTab" = ("bleh", "defaultTab") ∧
    getNameAndEnvFromTest "JAILED //test1 - [env1]" "x" = ("//test1", "env1") := by
  refine ⟨?_, ?_, by decide, by decide⟩
  · intro tn tab n e h
    unfold getNameAndEnvFromTest
    rw [h]
  · intro tn tab h
    unfold getNameAndEnvFromTest
    rw [h]

/-- Witness for C7: both branches of the splitter exercised at the spec's
concrete inputs. -/
theorem getNameAndEnvFromTest_spec_witness :
    getNameAndEnvFromTest "JAILED //test1 - [env1]" "x" = ("//test1", "env1") ∧
    getNameAndEnvFromTest "bleh" "defaultTab" = ("bleh", "defaultTab") :=
  ⟨getNameAndEnvFromTest_spec.1 "JAILED //test1 - [env1]" "x" "//test1" "env1"
      (by decide),
   getNameAndEnvFromTest_spec.2.1 "bleh" "defaultTab" (by decide)⟩

/-! ### Association-list and report-builder lemmas -/

theorem lookupA_eq_none_iff {α : Type} (m : List (String × α)) (k : String) :
    lookupA m k = none ↔ k ∉ m.map Prod.fst := by
  induction m with
  | nil => simp [lookupA]
  | cons q rest ih =>
    obtain ⟨k', v⟩ := q
    by_cases h : k' = k
    · subst h
      simp [lookupA]
    · simp only [lookupA, if_neg h, List.map_cons, List.mem_cons, ih]
      constructor
      · intro hk hor
        rcases hor with h1 | h1
        · exact h h1.symm
        · exact hk h1
      · intro hk h1
        exact hk (Or.inr h1)

theorem mem_setA {α : Type} (m : List (String × α)) (k : String) (v : α)
    (p : String × α) (hp : p ∈ setA m k v) : p = (k, v) ∨ p ∈ m := by
  induction m with
  | nil => simpa [setA] using hp
  | cons q rest ih =>
    obtain ⟨k', v'⟩ := q
    by_cases h : k' = k
    · subst h
      rw [setA, if_pos rfl] at hp
      rcases List.mem_cons.mp hp with h1 | h1
      · exact Or.inl h1
      · exact Or.inr (List.mem_cons_of_mem _ h1)
    · rw [setA, if_neg h] at hp
      rcases List.mem_cons.mp hp with h1 | h1
      · exact Or.inr (h1 ▸ List.mem_cons_self _ _)
      · rcases ih h1 with h2 | h2
        · exact Or.inl h2
        · exact Or.inr (List.mem_cons_of_mem _ h2)

theorem setA_map_fst_none {α : Type} (m : List (String × α)) (k : String)
    (v : α) (h : lookupA m k = none) :
    (setA m k v).map Prod.fst = m.map Prod.fst ++ [k] := by
  induction m with
  | nil => simp [setA]
  | cons q rest ih =>
    obtain ⟨k', v'⟩ := q
    rw [lookupA] at h
    by_cases hk : k' = k
    · rw [if_pos hk] at h
      exact absurd h (by simp)
    · rw [if_neg hk] at h
      simp [setA, hk, ih h]

theorem setA_map_fst_some {α : Type} (m : List (String × α)) (k : String)
    (v w : α) (h : lookupA m k = some w) :
    (setA m k v).map Prod.fst = m.map Prod.fst := by
  induction m with
  | nil => simp [lookupA] at h
  | cons q rest ih =>
    obtain ⟨k', v'⟩ := q
    rw [lookupA] at h
    by_cases hk : k' = k
    · subst hk
      simp [setA]
    · rw [if_neg hk] at h
      simp [setA, hk, ih h]

theorem mergeTestInfo_map_fst (m : List (String × TestInfo)) (k : String)
    (v : TestInfo) :
    (mergeTestInfo m k v).map Prod.fst = m.map Prod.fst ∨
      ((mergeTestInfo m k v).map Prod.fst = m.map Prod.fst ++ [k] ∧
        lookupA m k = none) := by
  unfold mergeTestInfo
  cases hlk : lookupA m k with
  | none =>
    dsimp only
    exact Or.inr ⟨setA_map_fst_none m k v hlk, rfl⟩
  | some curr =>
    dsimp only
    left
    split
    · exact setA_map_fst_some m k v curr hlk
    · rfl

theorem mem_mergeTestInfo (m : List (String × TestInfo)) (k : String)
    (v : TestInfo) (p : String × TestInfo) :
    p ∈ mergeTestInfo m k v → p = (k, v) ∨ p ∈ m := by
  unfold mergeTestInfo
  cases hlk : lookupA m k with
  | none =>
    dsimp only
    exact fun hp => mem_setA m k v p hp
  | some curr =>
    dsimp only
    intro hp
    by_cases hcmp : curr.flakiness < v.flakiness
    · rw [if_pos hcmp] at hp
      exact mem_setA m k v p hp
    · rw [if_neg hcmp] at hp
      exact Or.inr hp

theorem naiveStep_accepted (tab : String) (minRuns : ℤ)
    (st : List (String × TestInfo) × List (String × ℕ)) (r : Result)
    (h : (calculateNaiveFlakiness r minRuns).2 = true) :
    naiveStep tab minRuns st r =
      (mergeTestInfo st.1 (getNameAndEnvFromTest r.name tab).1
        { (calculateNaiveFlakiness r minRuns).1 with
          name := (getNameAndEnvFromTest r.name tab).1,
          env := (getNameAndEnvFromTest r.name tab).2 },
       accumInfra st.2 r) := by
  unfold naiveStep
  dsimp only
  rw [if_pos h]

theorem mergeTestInfo_nil (k : String) (v : TestInfo) :
    mergeTestInfo [] k v = [(k, v)] := rfl

theorem mergeTestInfo_single (k : String) (a b : TestInfo) :
    mergeTestInfo [(k, a)] k b =
      if a.flakiness < b.flakiness then [(k, b)] else [(k, a)] := by
  have hlk : lookupA [(k, a)] k = some a := by simp [lookupA]
  unfold mergeTestInfo
  rw [hlk]
  dsimp only
  by_cases h : a.flakiness < b.flakiness
  · rw [if_pos h, if_pos h]
    simp [setA]
  · rw [if_neg h, if_neg h]

theorem naiveStep_inv (tab : String) (minRuns : ℤ)
    (st : List (String × TestInfo) × List (String × ℕ)) (r : Result)
    (h1 : (st.1.map Prod.fst).Nodup) (h2 : ∀ p ∈ st.1, p.2.name = p.1) :
    (((naiveStep tab minRuns st r).1.map Prod.fst).Nodup ∧
      ∀ p ∈ (naiveStep tab minRuns st r).1, p.2.name = p.1) := by
  unfold naiveStep
  dsimp only
  split
  · constructor
    · rcases mergeTestInfo_map_fst st.1 (getNameAndEnvFromTest r.name tab).1
        ({ (calculateNaiveFlakiness r minRuns).1 with
           name := (getNameAndEnvFromTest r.name tab).1,
           env := (getNameAndEnvFromTest r.name tab).2 }) with h | ⟨h, hnone⟩
      · rw [h]; exact h1
      · rw [h]
        rw [List.nodup_append]
        refine ⟨h1, List.nodup_singleton _, ?_⟩
        intro a ha hb
        rw [List.mem_singleton] at hb
        subst hb
        exact (lookupA_eq_none_iff _ _).mp hnone ha
    · intro p hp
      rcases mem_mergeTestInfo _ _ _ p hp with h | h
      · subst h
        rfl
      · exact h2 p h
  · exact ⟨h1, h2⟩

theorem naiveLoop_inv (tab : String) (minRuns : ℤ) :
    ∀ (results : List Result)
      (st : List (String × TestInfo) × List (String × ℕ)),
      (st.1.map Prod.fst).Nodup → (∀ p ∈ st.1, p.2.name = p.1) →
      (((results.foldl (naiveStep tab minRuns) st).1.map Prod.fst).Nodup ∧
        ∀ p ∈ (results.foldl (naiveStep tab minRuns) st).1, p.2.name = p.1)
  | [], st, h1, h2 => ⟨h1, h2⟩
  | r :: rs, st, h1, h2 => by
    rw [List.foldl_cons]
    obtain ⟨h1', h2'⟩ := naiveStep_inv tab minRuns st r h1 h2
    exact naiveLoop_inv tab minRuns rs (naiveStep tab minRuns st r) h1' h2'

theorem createHealthiness_tests (sd ed : ℤ) (results : List Result)
    (tbe : List (String × TestInfo)) (ii : List (String × ℕ)) :
    (createHealthiness sd ed results tbe ii).tests = tbe.map Prod.snd := by
  have key : ∀ (l : List (String × TestInfo))
      (init : List TestInfo × ℚ × List FlakyBucket),
      (l.foldl (fun acc kv =>
        (acc.1 ++ [kv.2], acc.2.1 + kv.2.flakiness,
         assignBucket kv.2.flakiness acc.2.2)) init).1 =
        init.1 ++ l.map Prod.snd := by
    intro l
    induction l with
    | nil => intro init; simp
    | cons kv rest ih =>
      intro init
      rw [List.foldl_cons, ih]
      simp
  unfold createHealthiness
  dsimp only
  rw [key]
  simp

theorem assignBucket_map_threshold (f : ℚ) :
    ∀ bs : List FlakyBucket,
      (assignBucket f bs).map FlakyBucket.threshold =
        bs.map FlakyBucket.threshold
  | [] => rfl
  | b :: rest => by
    rw [assignBucket]
    split
    · simp
    · simp [assignBucket_map_threshold f rest]

theorem createHealthiness_buckets_map (sd ed : ℤ) (results : List Result)
    (tbe : List (String × TestInfo)) (ii : List (String × ℕ)) :
    (createHealthiness sd ed results tbe ii).flakyBuckets.map
        FlakyBucket.threshold =
      (freshBuckets (HEALTHY_RANGE.map Prod.fst)).map FlakyBucket.threshold := by
  have key : ∀ (l : List (String × TestInfo))
      (init : List TestInfo × ℚ × List FlakyBucket),
      ((l.foldl (fun acc kv =>
        (acc.1 ++ [kv.2], acc.2.1 + kv.2.flakiness,
         assignBucket kv.2.flakiness acc.2.2)) init).2.2).map
          FlakyBucket.threshold =
        init.2.2.map FlakyBucket.threshold := by
    intro l
    induction l with
    | nil => intro init; rfl
    | cons kv rest ih =>
      intro init
      rw [List.foldl_cons, ih]
      exact assignBucket_map_threshold _ _
  unfold createHealthiness
  dsimp only
  rw [key]

/-- C3: `naiveFlakiness` merges per-environment records by parsed base name
only — the report's tests list never repeats a base name, and for two rows
parsing to the same base name the existing entry survives unless the second
row's flakiness is strictly higher (so a tie keeps the earlier-seen entry and
only one environment per base name reaches the list). -/
theorem naiveFlakiness_merge :
    (∀ (results : List Result) (minRuns sd ed : ℤ) (tab : String),
      (((naiveFlakiness results minRuns sd ed tab).tests.map
        TestInfo.name)).Nodup) ∧
    (∀ (r1 r2 : Result) (minRuns sd ed : ℤ) (tab : String),
      (getNameAndEnvFromTest r1.name tab).1 =
        (getNameAndEnvFromTest r2.name tab).1 →
      (calculateNaiveFlakiness r1 minRuns).2 = true →
      (calculateNaiveFlakiness r2 minRuns).2 = true →
      (naiveFlakiness [r1, r2] minRuns sd ed tab).tests =
        [if (calculateNaiveFlakiness r1 minRuns).1.flakiness <
            (calculateNaiveFlakiness r2 minRuns).1.flakiness then
           { (calculateNaiveFlakiness r2 minRuns).1 with
             name := (getNameAndEnvFromTest r2.name tab).1,
             env := (getNameAndEnvFromTest r2.name tab).2 }
         else
           { (calculateNaiveFlakiness r1 minRuns).1 with
             name := (getNameAndEnvFromTest r1.name tab).1,
             env := (getNameAndEnvFromTest r1.name tab).2 }]) := by
  constructor
  · intro results minRuns sd ed tab
    unfold naiveFlakiness
    rw [createHealthiness_tests]
    obtain ⟨hnod, hname⟩ := naiveLoop_inv tab minRuns results ([], [])
      (by simp) (by simp)
    have heq : ((results.foldl (naiveStep tab minRuns) ([], [])).1.map
        Prod.snd).map TestInfo.name =
        (results.foldl (naiveStep tab minRuns) ([], [])).1.map Prod.fst := by
      rw [List.map_map]
      exact List.map_congr_left fun p hp => hname p hp
    show (((results.foldl (naiveStep tab minRuns) ([], [])).1.map
      Prod.snd).map TestInfo.name).Nodup
    rw [heq]
    exact hnod
  · intro r1 r2 minRuns sd ed tab hname h1 h2
    unfold naiveFlakiness
    rw [createHealthiness_tests]
    have hloop : naiveLoop [r1, r2] minRuns tab =
        naiveStep tab minRuns (naiveStep tab minRuns ([], []) r1) r2 := rfl
    rw [hloop, naiveStep_accepted tab minRuns ([], []) r1 h1,
      naiveStep_accepted tab minRuns _ r2 h2]
    dsimp only
    rw [← hname, mergeTestInfo_nil, mergeTestInfo_single]
    by_cases hf : (calculateNaiveFlakiness r1 minRuns).1.flakiness <
        (calculateNaiveFlakiness r2 minRuns).1.flakiness
    · simp only [hf, if_true, ite_true, List.map_cons, List.map_nil]
    · simp only [hf, if_false, ite_false, List.map_cons, List.map_nil]

/-- Witness for C3: two environments of the same base name with tied
flakiness — the earlier-seen entry survives as the only tests entry. -/
theorem naiveFlakiness_merge_witness :
    (naiveFlakiness [wRow1, wRow2] 0 0 2 "t").tests =
      [if (calculateNaiveFlakiness wRow1 0).1.flakiness <
          (calculateNaiveFlakiness wRow2 0).1.flakiness then
         { (calculateNaiveFlakiness wRow2 0).1 with
           name := (getNameAndEnvFromTest wRow2.name "t").1,
           env := (getNameAndEnvFromTest wRow2.name "t").2 }
       else
         { (calculateNaiveFlakiness wRow1 0).1 with
           name := (getNameAndEnvFromTest wRow1.name "t").1,
           env := (getNameAndEnvFromTest wRow1.name "t").2 }] :=
  naiveFlakiness_merge.2 wRow1 wRow2 0 0 2 "t" (by decide) (by decide)
    (by decide)

theorem assignBucket_none (f : ℚ) :
    ∀ bs : List FlakyBucket, (∀ b ∈ bs, ¬f > b.threshold) →
      assignBucket f bs = bs
  | [], _ => rfl
  | b :: rest, h => by
    rw [assignBucket, if_neg (h b (List.mem_cons_self _ _)),
      assignBucket_none f rest fun b' hb' => h b' (List.mem_cons_of_mem _ hb')]

theorem assignBucket_first (f : ℚ) (b : FlakyBucket)
    (post : List FlakyBucket) (hb : f > b.threshold) :
    ∀ pre : List FlakyBucket, (∀ b' ∈ pre, ¬f > b'.threshold) →
      assignBucket f (pre ++ b :: post) =
        pre ++ { b with tests := b.tests + 1 } :: post
  | [], _ => by
    rw [List.nil_append, assignBucket, if_pos hb, List.nil_append]
  | p :: pre', h => by
    rw [List.cons_append, assignBucket,
      if_neg (h p (List.mem_cons_self _ _)),
      assignBucket_first f b post hb pre'
        fun b' hb' => h b' (List.mem_cons_of_mem _ hb'),
      List.cons_append]

/-- C4: `createHealthiness` creates the buckets in strictly descending
threshold order 20, 10, 3, 0 (the descending sort is invariant under any
enumeration order of the threshold map), and each flakiness value is counted
in exactly one bucket — the first in that order whose threshold it strictly
exceeds (50 only in the 20-bucket) — and in none when it exceeds none. -/
theorem createHealthiness_buckets :
    (∀ (sd ed : ℤ) (results : List Result)
      (tbe : List (String × TestInfo)) (ii : List (String × ℕ)),
      (createHealthiness sd ed results tbe ii).flakyBuckets.map
        FlakyBucket.threshold = [20, 10, 3, 0]) ∧
    (∀ keys : List ℤ, keys.Perm [20, 10, 3, 0] →
      sortKeysDesc keys = [20, 10, 3, 0]) ∧
    (∀ (f : ℚ) (bs : List FlakyBucket), (∀ b ∈ bs, ¬f > b.threshold) →
      assignBucket f bs = bs) ∧
    (∀ (f : ℚ) (b : FlakyBucket) (pre post : List FlakyBucket),
      f > b.threshold → (∀ b' ∈ pre, ¬f > b'.threshold) →
      assignBucket f (pre ++ b :: post) =
        pre ++ { b with tests := b.tests + 1 } :: post) ∧
    (∀ f : ℚ, assignBucket f (freshBuckets (HEALTHY_RANGE.map Prod.fst)) =
      if f > 20 then [⟨20, 1⟩, ⟨10, 0⟩, ⟨3, 0⟩, ⟨0, 0⟩]
      else if f > 10 then [⟨20, 0⟩, ⟨10, 1⟩, ⟨3, 0⟩, ⟨0, 0⟩]
      else if f > 3 then [⟨20, 0⟩, ⟨10, 0⟩, ⟨3, 1⟩, ⟨0, 0⟩]
      else if f > 0 then [⟨20, 0⟩, ⟨10, 0⟩, ⟨3, 0⟩, ⟨0, 1⟩]
      else [⟨20, 0⟩, ⟨10, 0⟩, ⟨3, 0⟩, ⟨0, 0⟩]) ∧
    assignBucket 50 (freshBuckets (HEALTHY_RANGE.map Prod.fst)) =
      [⟨20, 1⟩, ⟨10, 0⟩, ⟨3, 0⟩, ⟨0, 0⟩] := by
  refine ⟨?_, ?_, fun f bs h => assignBucket_none f bs h,
    fun f b pre post hb h => assignBucket_first f b post hb pre h, ?_,
    by decide⟩
  · intro sd ed results tbe ii
    rw [createHealthiness_buckets_map]
    decide
  · intro keys hperm
    haveI : IsTotal ℤ (fun a b : ℤ => a ≥ b) :=
      ⟨fun a b => (le_total b a).imp id id⟩
    haveI : IsTrans ℤ (fun a b : ℤ => a ≥ b) :=
      ⟨fun a b c hab hbc => le_trans hbc hab⟩
    haveI : IsAntisymm ℤ (fun a b : ℤ => a ≥ b) :=
      ⟨fun a b hab hba => le_antisymm hba hab⟩
    exact List.eq_of_perm_of_sorted
      ((List.perm_insertionSort _ keys).trans hperm)
      (List.sorted_insertionSort _ keys) (by decide)
  · intro f
    have hfresh : freshBuckets (HEALTHY_RANGE.map Prod.fst) =
        [⟨20, 0⟩, ⟨10, 0⟩, ⟨3, 0⟩, ⟨0, 0⟩] := by decide
    rw [hfresh]
    simp only [assignBucket]
    split_ifs <;> rfl

/-- Witness for C4: the descending key sort applied to a permuted
enumeration of the threshold map. -/
theorem createHealthiness_buckets_witness :
    sortKeysDesc [0, 3, 10, 20] = [20, 10, 3, 0] :=
  createHealthiness_buckets.2.1 [0, 3, 10, 20] (by decide)

/-- C8: a row rejected for insufficient runs still counts toward
`totalConfigs` (always the raw results-list length) and still folds each of
its `infraFailures` causes into the global `infraIssues` map (keyed by the
unsplit raw row name, a dash and the cause, as `accumInfra` does), while
contributing no entry to the report's tests list. -/
theorem naiveFlakiness_rejected_rows :
    (∀ (results : List Result) (minRuns sd ed : ℤ) (tab : String),
      (naiveFlakiness results minRuns sd ed tab).totalConfigs =
        results.length) ∧
    (∀ (r : Result) (results : List Result) (minRuns sd ed : ℤ)
      (tab : String),
      (calculateNaiveFlakiness r minRuns).2 = false →
      (naiveFlakiness (results ++ [r]) minRuns sd ed tab).tests =
          (naiveFlakiness results minRuns sd ed tab).tests ∧
        (naiveFlakiness (results ++ [r]) minRuns sd ed tab).infraIssues =
          accumInfra (naiveFlakiness results minRuns sd ed tab).infraIssues
            r ∧
        (naiveFlakiness (results ++ [r]) minRuns sd ed tab).totalConfigs =
          results.length + 1) := by
  constructor
  · intro results minRuns sd ed tab
    rfl
  · intro r results minRuns sd ed tab hrej
    have hloop : naiveLoop (results ++ [r]) minRuns tab =
        naiveStep tab minRuns (naiveLoop results minRuns tab) r := by
      unfold naiveLoop
      rw [List.foldl_append]
      rfl
    have hstep : naiveStep tab minRuns (naiveLoop results minRuns tab) r =
        ((naiveLoop results minRuns tab).1,
          accumInfra (naiveLoop results minRuns tab).2 r) := by
      unfold naiveStep
      dsimp only
      rw [if_neg (by rw [hrej]; exact Bool.false_ne_true)]
    refine ⟨?_, ?_, ?_⟩
    · unfold naiveFlakiness
      rw [createHealthiness_tests, createHealthiness_tests, hloop, hstep]
    · unfold naiveFlakiness
      show (naiveLoop (results ++ [r]) minRuns tab).2 =
        accumInfra (naiveLoop results minRuns tab).2 r
      rw [hloop, hstep]
    · show (results ++ [r]).length = results.length + 1
      simp

/-- Witness for C8: a zero-run row with an infra cause under `minRuns = 1`
is dropped from tests but still feeds `infraIssues` and `totalConfigs`. -/
theorem naiveFlakiness_rejected_rows_witness :
    (naiveFlakiness ([] ++ [wRejected]) 1 0 2 "t").tests =
        (naiveFlakiness [] 1 0 2 "t").tests ∧
      (naiveFlakiness ([] ++ [wRejected]) 1 0 2 "t").infraIssues =
        accumInfra (naiveFlakiness [] 1 0 2 "t").infraIssues wRejected ∧
      (naiveFlakiness ([] ++ [wRejected]) 1 0 2 "t").totalConfigs =
        List.length ([] : List Result) + 1 :=
  naiveFlakiness_rejected_rows.2 wRejected [] 1 0 2 "t" (by decide)

end Summarizer
